import Mathlib

/-!
Verification of the matching-and-reconciliation engine of the
`device_detector` repository (files `parser/parser.py` and
`parser/client/browser.py`), shallowly embedded in Lean 4.

Strings are modelled as `List Char`; Python dicts holding the identity
record are modelled as fixed-schema structures whose `Option` fields
record key presence (`none` = key absent).  Compiled regexes are
modelled as functions returning the captured groups on a match
(`Str → Option (List (Option Str))`), literal substring patterns by an
executable substring search.
-/

set_option autoImplicit false

namespace DeviceDetector

/-- Python strings, modelled as lists of characters. -/
abbrev Str := List Char

/-- Value of `o.get(key)` coalesced with an empty-string default, as in
`d.get(k, '')` or `x or ''` on an optional field. -/
def orEmpty (o : Option Str) : Str :=
  o.getD []

/-- Left-biased choice of optional values: models a dict-merge where the
left operand's key, when present, overwrites. -/
def oor {α : Type} (a b : Option α) : Option α :=
  match a with
  | some x => some x
  | none => b

/-- Truthiness of an optional string field: the key is present and its
value is a non-empty string. -/
def truthyO (o : Option Str) : Bool :=
  !(orEmpty o).isEmpty

/-- Substring search: `searchSubstr pat s` is true when `pat` occurs
contiguously in `s`, modelling `regex.search` for a literal pattern. -/
def searchSubstr (pat : Str) : Str → Bool
  | [] => pat.isEmpty
  | c :: rest => pat.isPrefixOf (c :: rest) || searchSubstr pat rest

/-- Python `str.split(sep)` semantics generalised to a Boolean separator
predicate: splitting the empty string yields one empty segment, and each
separator character ends the current segment. -/
def splitSeg (p : Char → Bool) : Str → List Str
  | [] => [[]]
  | c :: cs =>
    if p c then [] :: splitSeg p cs
    else
      match splitSeg p cs with
      | [] => [[c]]
      | s :: ss => (c :: s) :: ss

/-- Python `'.'.join(segments)`. -/
def joinDots (segs : List Str) : Str :=
  List.intercalate ['.'] segs

/-- Python list slicing `l[:n]` for an `int` bound `n` (negative bounds
count from the end, clamped at zero). -/
def pyTake {α : Type} (l : List α) (n : Int) : List α :=
  if n < 0 then l.take (l.length - (-n).toNat) else l.take n.toNat

/-- Embedding of `parser.build_version`: return the input unchanged for
truncation `-1`; otherwise replace underscores by dots, split on dots,
return the input unchanged when it already has exactly `truncation + 1`
segments, and otherwise rejoin the first `truncation + 1` segments. -/
def build_version (version_str : Str) (truncation : Int) : Str :=
  if truncation = -1 then version_str
  else
    let retain_segments := truncation + 1
    let segments :=
      splitSeg (fun c => c == '.')
        (version_str.map (fun c => if c == '_' then '.' else c))
    if (segments.length : Int) = retain_segments then version_str
    else joinDots (pyTake segments retain_segments)

/-- Splitting on `.` and `_` directly, as the spec words the truncation
helper ("splits on `.`/`_`"). -/
def splitSpec (version : Str) : List Str :=
  splitSeg (fun c => c == '.' || c == '_') version

/-- The truncation helper as the spec describes it, for refinement
comparison with `build_version`: split on `.`/`_`, keep the first
`keep + 1` segments dot-joined, input unchanged when it already has
exactly that many segments or when `keep = -1`. -/
def truncate_spec (version : Str) (keep : Int) : Str :=
  if keep = -1 then version
  else if (( splitSpec version).length : Int) = keep + 1 then version
  else joinDots (pyTake (splitSpec version) (keep + 1))

theorem splitSeg_map_underscore (v : Str) :
    splitSeg (fun c => c == '.') (v.map (fun c => if c == '_' then '.' else c)) =
      splitSeg (fun c => c == '.' || c == '_') v := by
  induction v with
  | nil => rfl
  | cons c cs ih =>
    cases hund : (c == '_') with
    | true =>
      have hc : c = '_' := by simpa using hund
      subst hc
      simp only [List.map_cons, if_pos rfl, splitSeg, ih]
      rfl
    | false =>
      cases hdot : (c == '.') with
      | true =>
        have hc : c = '.' := by simpa using hdot
        subst hc
        simp only [List.map_cons, splitSeg, ih, hund, if_neg, Bool.false_eq_true,
          not_false_eq_true, if_false]
        rfl
      | false =>
        simp only [List.map_cons, hund, Bool.false_eq_true, not_false_eq_true,
          if_false, splitSeg, hdot, Bool.false_or, ih]

/-- C6: on input `"10.0.16299.371"` with truncation `1` the code keeps
`truncation + 1 = 2` segments and returns `"10.0"`, contradicting its own
doctest (and the claim), which say `"10"`.  The remaining parts of the
claim hold: truncation `-1` returns the input unchanged,
`build_version "10" 1 = "10"`, the function agrees everywhere with the
spec-worded splitter `truncate_spec` (split on `.`/`_`, keep the first
`keep + 1` segments dot-joined), and the input is returned unchanged when
it already has exactly `keep + 1` segments. -/
theorem build_version_doctest_divergence :
    build_version "10.0.16299.371".toList 1 = "10.0".toList ∧
    "10.0".toList ≠ "10".toList ∧
    (∀ v : Str, build_version v (-1) = v) ∧
    build_version "10".toList 1 = "10".toList ∧
    (∀ (v : Str) (k : Int), build_version v k = truncate_spec v k) ∧
    (∀ (v : Str) (k : Int), ((splitSpec v).length : Int) = k + 1 →
      build_version v k = v) := by
  refine ⟨by decide, by decide, fun v => by simp [build_version], by decide, ?_, ?_⟩
  · intro v k
    unfold build_version truncate_spec splitSpec
    rw [splitSeg_map_underscore]
  · intro v k hlen
    unfold splitSpec at hlen
    unfold build_version
    rw [splitSeg_map_underscore]
    by_cases hk : k = -1
    · simp [hk]
    · simp [hk, hlen]

theorem build_version_doctest_divergence_witness :
    build_version "1.2".toList 1 = "1.2".toList :=
  build_version_doctest_divergence.2.2.2.2.2 "1.2".toList 1 (by decide)

/-- Value of the `engine` entry of a rule or record: either the engine
descriptor dict from the rule data (optional `default` name plus a
`versions` mapping from numeric thresholds to engine names), or a plain
engine-name string written by `set_engine`'s versions loop. -/
inductive EngineVal where
  | descr (default : Option Str) (versions : List (Nat × Str))
  | str (s : Str)
  deriving DecidableEq

/-- Python truthiness of `ua_data.get('engine', '')`: an absent key and
an empty dict or empty string are falsy. -/
def engineTruthy : Option EngineVal → Bool
  | none => false
  | some (.descr d vs) => d.isSome || !vs.isEmpty
  | some (.str s) => !s.isEmpty

/-- One version-condition sub-rule from a rule's `versions` list: a
compiled pattern and the fixed version it selects. -/
structure VersionCondition where
  vregex : Str → Bool
  vversion : Str

/-- One entry of `regex_list`: the compiled pattern (returning the
captured groups on a match, `none` for a non-participating group) plus
the rule's data fields (`Option`/empty-list values model absent keys). -/
structure Rule where
  regex : Str → Option (List (Option Str))
  name : Option Str := none
  version : Option Str := none
  versions : List VersionCondition := []
  engine : Option EngineVal := none

/-- The `ua_data` dict as a fixed-schema record; a field holds `none`
exactly when the dict key is absent. -/
structure UAData where
  name : Option Str := none
  version : Option Str := none
  short_name : Option Str := none
  family : Option Str := none
  engine : Option EngineVal := none
  engine_version : Option Str := none
  app_id : Option Str := none
  versions : List VersionCondition := []

/-- Python truthiness of the `ua_data` dict itself: empty iff no key is
present. -/
def UAData.isEmptyDict (d : UAData) : Bool :=
  d.name.isNone && d.version.isNone && d.short_name.isNone && d.family.isNone &&
    d.engine.isNone && d.engine_version.isNone && d.app_id.isNone && d.versions.isEmpty

/-- Modelled from the spec: `ClientHints.client_data()` is not under
`src/`.  Per the spec's data model, a client-hint record carries at
least `name, version, brand_list, app_id`; the fields consumed by the
reconciliation code are modelled here, `none` meaning the key is
absent. -/
structure ClientHintData where
  name : Option Str := none
  version : Option Str := none
  app_id : Option Str := none

/-- Modelled from the spec: the `ClientHints` object consumed by
`Browser.set_data_from_client_hints` — its `client_data()` payload and
the result of its `client_is_browser()` predicate. -/
structure ClientHints where
  data : ClientHintData
  isBrowser : Bool

/-- Mutable attributes of a `Parser` instance touched by the embedded
pipeline: `ua_data`, the `known` flag and the stored match (its groups). -/
structure ParserState where
  ua_data : UAData := {}
  known : Bool := false
  matched : Option (List (Option Str)) := none

/-- The per-hash cache slot `DDCache['user_agents'][hash]`: a dict from
cache names to records. -/
abbrev CacheEntry := List (Str × UAData)

/-- The `DDCache['user_agents']` dict: content hash to per-hash slot. -/
abbrev Cache := List (Str × CacheEntry)

/-- Python dict lookup `d[k]` / `d.get(k)` on an association list. -/
def lookupA {β : Type} (k : Str) : List (Str × β) → Option β
  | [] => none
  | (k', v) :: rest => if k = k' then some v else lookupA k rest

/-- Python dict assignment `d[k] = v`: overwrite the existing key or
append a new one. -/
def setA {β : Type} (k : Str) (v : β) : List (Str × β) → List (Str × β)
  | [] => [(k, v)]
  | (k', v') :: rest => if k = k' then (k, v) :: rest else (k', v') :: setA k v rest

/-- Result of `Parser.get_from_cache`: the record found under
`(hash, cache_name)`, the `None` default of `.get` when the hash slot
exists but has no entry for this cache name, or the literal `\x7b\x7d`
returned on the `KeyError` path. -/
inductive CacheGetResult where
  | found (d : UAData)
  | noneVal
  | emptyDict

/-- Embedding of `Parser.get_from_cache`: on the success path return
`DDCache['user_agents'][hash].get(cache_name, None)` and leave the cache
untouched; on the `KeyError` path (hash absent) store an empty dict
under the hash and return an empty dict. -/
def get_from_cache (c : Cache) (ua_hash cache_name : Str) :
    CacheGetResult × Cache :=
  match lookupA ua_hash c with
  | some entry =>
    (match lookupA cache_name entry with
     | some d => .found d
     | none => .noneVal,
     c)
  | none => (.emptyDict, setA ua_hash [] c)

/-- Python truthiness of the value returned by `get_from_cache`: only a
non-empty record dict is truthy. -/
def detailsTruthy : CacheGetResult → Bool
  | .found d => !d.isEmptyDict
  | .noneVal => false
  | .emptyDict => false

/-- Embedding of `Parser.add_to_cache`:
`DDCache['user_agents'][hash][cache_name] = ua_data`.  When the hash slot
is absent Python would raise `KeyError`; in the `parse` flow
`get_from_cache` has always created the slot first, so that case leaves
the cache unchanged here. -/
def add_to_cache (c : Cache) (ua_hash cache_name : Str) (d : UAData) : Cache :=
  match lookupA ua_hash c with
  | some entry => setA ua_hash (setA cache_name d entry) c
  | none => c

/-- The merge `self.ua_data |= (rule minus its regex)` performed by
`Parser._parse` on a match: every data key present on the rule
overwrites the record's key. -/
def mergeRule (d : UAData) (r : Rule) : UAData :=
  { d with
    name := oor r.name d.name
    version := oor r.version d.version
    versions := if r.versions.isEmpty then d.versions else r.versions
    engine := oor r.engine d.engine }

/-- Embedding of `Parser._parse`: scan `regex_list` in order; on the
first rule whose pattern matches, store the match, merge the rule's data
into `ua_data`, set `known` and stop. -/
def parseLoop (user_agent : Str) : List Rule → ParserState → ParserState
  | [], st => st
  | r :: rest, st =>
    match r.regex user_agent with
    | some groups =>
      { st with
        matched := some groups
        ua_data := mergeRule st.ua_data r
        known := true }
    | none => parseLoop user_agent rest st

/-- The loop body of `Parser.extract_version` over the popped `versions`
list: the first sub-rule whose pattern matches the user agent sets the
version and stops. -/
def versionLoop (user_agent : Str) (d : UAData) : List VersionCondition → UAData
  | [] => d
  | vc :: rest =>
    if vc.vregex user_agent then { d with version := some vc.vversion }
    else versionLoop user_agent d rest

/-- Embedding of `Parser.extract_version`: pop the `versions` key and
run the sub-rule loop against the full user-agent string. -/
def extract_version (user_agent : Str) (d : UAData) : UAData :=
  versionLoop user_agent { d with versions := [] } d.versions

/-- Modelled from the spec: `extractors.NameExtractor` /
`extractors.VersionExtractor` are not under `src/`.  Positional
placeholders (`$1` … `$9`) in a template are substituted by the
corresponding captured group value; a placeholder referencing a group
that did not participate in the match substitutes the empty string; text
without placeholders passes through unchanged. -/
def substituteGroups (groups : List (Option Str)) : Str → Str
  | [] => []
  | '$' :: c :: rest =>
    if c.isDigit then
      orEmpty ((groups.getD (c.toNat - '1'.toNat) none)) ++ substituteGroups groups rest
    else '$' :: c :: substituteGroups groups rest
  | c :: rest => c :: substituteGroups groups rest

/-- Surrounding-whitespace trim used by the extractors. -/
def trimStr (s : Str) : Str :=
  ((s.dropWhile Char.isWhitespace).reverse.dropWhile Char.isWhitespace).reverse

/-- Modelled from the spec: `extractors.NameExtractor` — substitute
placeholders, then trim surrounding whitespace. -/
def nameExtract (groups : List (Option Str)) (template : Str) : Str :=
  trimStr (substituteGroups groups template)

/-- Modelled from the spec: `extractors.VersionExtractor` — substitute
placeholders, collapse underscores to dots, strip trailing separator
characters, and discard the result when it is empty or has no digit. -/
def versionExtract (groups : List (Option Str)) (template : Str) : Str :=
  let v := substituteGroups groups template
  let v := v.map (fun c => if c == '_' then '.' else c)
  let v := trimStr v
  let v := (v.reverse.dropWhile (fun c => c == '.')).reverse
  if v.any Char.isDigit then v else []

/-- Embedding of `Parser.set_details`: when the stored match has capture
groups, re-extract the name and version fields from their templates;
afterwards clear the version when the name is absent or empty while the
version is non-empty ("no version without a name"). -/
def set_details (st : ParserState) : ParserState :=
  let groups : Option (List (Option Str)) :=
    match st.matched with
    | some gs => if gs.isEmpty then none else some gs
    | none => none
  let d := st.ua_data
  let d :=
    match groups with
    | some gs =>
      let d1 :=
        match d.name with
        | some tpl => { d with name := some (nameExtract gs tpl) }
        | none => d
      match d1.version with
      | some tpl => { d1 with version := some (versionExtract gs tpl) }
      | none => d1
    | none => d
  let d :=
    if (orEmpty d.name).isEmpty && !(orEmpty d.version).isEmpty then
      { d with version := some [] }
    else d
  { st with ua_data := d }

/-- Embedding of `Parser.extract_details`: run `extract_version`, then
`set_details`, then `add_to_cache`. -/
def extract_details (user_agent ua_hash cache_name : Str)
    (st : ParserState) (c : Cache) : ParserState × Cache :=
  let st := { st with ua_data := extract_version user_agent st.ua_data }
  let st := set_details st
  (st, add_to_cache c ua_hash cache_name st.ua_data)

/-- Embedding of `Parser.parse` for a freshly constructed parser: fetch
from the cache and, when the fetched details are truthy, return the
parser as-is (its `ua_data` still the empty dict of `__init__`);
otherwise run `_parse` and `extract_details`. -/
def parse (rules : List Rule) (user_agent ua_hash cache_name : Str)
    (c : Cache) : ParserState × Cache :=
  let res := get_from_cache c ua_hash cache_name
  if detailsTruthy res.1 then ({}, res.2)
  else extract_details user_agent ua_hash cache_name (parseLoop user_agent rules {}) res.2

/-- Embedding of `Parser.name`. -/
def ParserState.nameF (st : ParserState) : Str :=
  orEmpty st.ua_data.name

/-- Embedding of `Parser.version`. -/
def ParserState.versionF (st : ParserState) : Str :=
  orEmpty st.ua_data.version

/-- Embedding of `Parser.is_known`: true exactly when the `ua_data` dict
is non-empty. -/
def ParserState.is_known (st : ParserState) : Bool :=
  !st.ua_data.isEmptyDict

/-- Embedding of `DATE_VERSION.search`, the anchored pattern
`202[0-5]` at the start of the version string: four characters `202x`
with `x` between `0` and `5`. -/
def dateVersionSearch : Str → Bool
  | '2' :: '0' :: '2' :: c :: _ =>
    c == '0' || c == '1' || c == '2' || c == '3' || c == '4' || c == '5'
  | _ => false

/-- Modelled from the spec: `BaseClientParser.set_data_from_client_hints`
is not under `src/`.  The spec's default reconciliation case: a generic
field-by-field overwrite of the UA record by any client-hint field that
is present, i.e. carries a non-empty value. -/
def superSetDataFromClientHints (ua : UAData) (chd : ClientHintData) : UAData :=
  { ua with
    name := if truthyO chd.name then chd.name else ua.name
    version := if truthyO chd.version then chd.version else ua.version
    app_id := if truthyO chd.app_id then chd.app_id else ua.app_id }

/-- The raw dict merge `self.ua_data |= ch_data`: every key present in
the client-hint dict overwrites the record's key. -/
def mergeCH (ua : UAData) (chd : ClientHintData) : UAData :=
  { ua with
    name := oor chd.name ua.name
    version := oor chd.version ua.version
    app_id := oor chd.app_id ua.app_id }

/-- The assignment `self.ua_data = ch_data`: the client-hint dict
becomes the record. -/
def uaOfCH (chd : ClientHintData) : UAData :=
  { name := chd.name, version := chd.version, app_id := chd.app_id }

def ddgName : Str := "DuckDuckGo Privacy Browser".toList

def chromiumName : Str := "Chromium".toList

def chromeWebviewName : Str := "Chrome Webview".toList

def iridiumName : Str := "Iridium".toList

def mobileSuffix : Str := " Mobile".toList

/-- Embedding of `Browser.set_data_from_client_hints`
(`browser.py` lines 104-158), branch for branch. -/
def set_data_from_client_hints (client_hints : Option ClientHints)
    (ua : UAData) : UAData :=
  match client_hints with
  | none => ua
  | some ch =>
    let ch_data := ch.data
    if ua.isEmptyDict && ch.isBrowser then uaOfCH ch_data
    else if truthyO ch_data.app_id then mergeCH ua ch_data
    else
      let ch_name := orEmpty ch_data.name
      let ch_version := orEmpty ch_data.version
      let ua_name := orEmpty ua.name
      let ua_short_name := orEmpty ua.short_name
      if ch_name = ddgName then
        let d := superSetDataFromClientHints ua ch_data
        { d with version := some [], engine_version := some ch_version }
      else if !ua_name.isEmpty &&
          (ch_name = chromiumName || ch_name = chromeWebviewName) &&
          !(ua_short_name = "CR".toList || ua_short_name = "CV".toList ||
            ua_short_name = "AN".toList) then
        if dateVersionSearch ch_version then
          { ua with name := some iridiumName, short_name := some "I1".toList }
        else
          { ua with
            name := some ua_name
            version := some (orEmpty ua.version)
            short_name := some ua_short_name }
      else
        let d := superSetDataFromClientHints ua ch_data
        if ch_name ++ mobileSuffix = ua_name then
          { d with name := some ua_name, short_name := some ua_short_name }
        else d

/-- Embedding of `Browser.set_engine` (`browser.py` lines 163-201).
`abbrevMap` and `familyMap` stand for the external `BROWSER_TO_ABBREV`
and `FAMILY_FROM_ABBREV` tables, `chVersion` for
`self.ch_client_data.get('version', '')`, and `engineFallback` for the
value `Engine(...).parse().ua_data` that the dead fallback branch would
assign. -/
def set_engine (abbrevMap familyMap : Str → Option Str) (chVersion : Str)
    (engineFallback : Option EngineVal) (ua : UAData) : UAData :=
  if !engineTruthy ua.engine then ua
  else
    let browser := orEmpty ua.name
    let abbreviation := (abbrevMap (browser.map Char.toLower)).getD browser
    let d := { ua with
      short_name := some abbreviation
      family := some ((familyMap abbreviation).getD browser) }
    if d.engine.isNone then { d with engine := engineFallback }
    else
      let client_version := if chVersion.isEmpty then orEmpty d.version else chVersion
      let versionsList :=
        match d.engine with
        | some (.descr _ vs) => vs
        | _ => []
      match versionsList.getLast? with
      | some item =>
        { d with engine := some (.str item.2), engine_version := some client_version }
      | none => d

/-! Helper lemmas shared by the claim theorems. -/

theorem parseLoop_eq_find (user_agent : Str) (rules : List Rule) (st : ParserState) :
    parseLoop user_agent rules st =
      match rules.find? (fun r => (r.regex user_agent).isSome) with
      | some r =>
        { st with
          matched := r.regex user_agent
          ua_data := mergeRule st.ua_data r
          known := true }
      | none => st := by
  induction rules with
  | nil => rfl
  | cons r rest ih =>
    cases h : r.regex user_agent with
    | some g => simp [parseLoop, h, List.find?]
    | none => simp [parseLoop, h, List.find?, ih]

theorem versionLoop_eq_find (user_agent : Str) (d : UAData)
    (vcs : List VersionCondition) :
    versionLoop user_agent d vcs =
      match vcs.find? (fun vc => vc.vregex user_agent) with
      | some vc => { d with version := some vc.vversion }
      | none => d := by
  induction vcs with
  | nil => rfl
  | cons vc rest ih =>
    cases h : vc.vregex user_agent with
    | true => simp [versionLoop, h, List.find?]
    | false => simp [versionLoop, h, List.find?, ih]

theorem lookupA_setA_self {β : Type} (k : Str) (v : β) (c : List (Str × β)) :
    lookupA k (setA k v c) = some v := by
  induction c with
  | nil => simp [setA, lookupA]
  | cons p rest ih =>
    by_cases h : k = p.1
    · simp [setA, lookupA, h]
    · simp [setA, lookupA, h, ih]

theorem orEmpty_eq_some {o : Option Str} (h : orEmpty o ≠ []) :
    o = some (orEmpty o) := by
  cases o with
  | none => simp [orEmpty] at h
  | some s => rfl

/-- Sample rules and inputs used by the concrete parts of the claims. -/
def substrRule (pat nm : String) : Rule :=
  { regex := fun s => if searchSubstr pat.toList s then some [] else none
    name := some nm.toList }

def chromeMobileRule : Rule := substrRule "Chrome Mobile" "Chrome Mobile"

def chromeRule : Rule := substrRule "Chrome" "Chrome"

def bothUA : Str := "Mozilla Chrome Mobile Safari".toList

/-- C3: `_parse` scans the rule list in its given order and adopts the
first rule whose pattern matches anywhere in the input as a substring;
no rule after the first match influences the outcome; for an input
containing both "Chrome Mobile" and "Chrome" the result is decided by
which rule appears first, and reordering the list changes the result. -/
theorem first_match_priority_order :
    (∀ (user_agent : Str) (rules : List Rule) (st : ParserState),
      parseLoop user_agent rules st =
        match rules.find? (fun r => (r.regex user_agent).isSome) with
        | some r =>
          { st with
            matched := r.regex user_agent
            ua_data := mergeRule st.ua_data r
            known := true }
        | none => st) ∧
    (∀ (user_agent : Str) (r : Rule) (t1 t2 : List Rule) (st : ParserState),
      (r.regex user_agent).isSome = true →
      parseLoop user_agent (r :: t1) st = parseLoop user_agent (r :: t2) st) ∧
    (parseLoop bothUA [chromeMobileRule, chromeRule] {}).ua_data.name =
      some "Chrome Mobile".toList ∧
    (parseLoop bothUA [chromeRule, chromeMobileRule] {}).ua_data.name =
      some "Chrome".toList ∧
    ("Chrome Mobile".toList : Str) ≠ "Chrome".toList := by
  refine ⟨parseLoop_eq_find, ?_, by decide, by decide, by decide⟩
  intro ua r t1 t2 st h
  cases hr : r.regex ua with
  | some g => simp [parseLoop, hr]
  | none => rw [hr] at h; simp at h

theorem first_match_priority_order_witness :
    parseLoop bothUA [chromeMobileRule, chromeRule] {} =
      parseLoop bothUA [chromeMobileRule] {} :=
  first_match_priority_order.2.1 bothUA chromeMobileRule [chromeRule] [] {} (by decide)

def fooVC1 : VersionCondition :=
  { vregex := searchSubstr "Foo".toList, vversion := "1.1".toList }

def fooVC2 : VersionCondition :=
  { vregex := searchSubstr "Foo".toList, vversion := "2.2".toList }

def zzzVC : VersionCondition :=
  { vregex := searchSubstr "Zzz".toList, vversion := "3.3".toList }

def fooRuleSub : Rule :=
  { regex := fun s => if searchSubstr "Foo".toList s then some [] else none
    name := some "Foo".toList
    version := some "9.9".toList
    versions := [fooVC1, fooVC2] }

def fooRuleNoSub : Rule := { fooRuleSub with versions := [zzzVC] }

def fooUA : Str := "Foo app".toList

/-- C8: `extract_version` tests each version-condition sub-rule against
the full input in declared order, independently of the main match's
capture groups; the first matching sub-rule's fixed version overrides
the record's version and later sub-rules are ignored; when no sub-rule
matches, the record's version (from the main match) stands.  Concretely,
a rule with main version `9.9` and two sub-rules both matching yields
the first sub-rule's `1.1` through the full pipeline, and with only a
non-matching sub-rule the main `9.9` stands. -/
theorem version_conditions_first_match :
    (∀ (user_agent : Str) (d : UAData),
      extract_version user_agent d =
        match d.versions.find? (fun vc => vc.vregex user_agent) with
        | some vc => { d with versions := [], version := some vc.vversion }
        | none => { d with versions := [] }) ∧
    (parse [fooRuleSub] fooUA "h8".toList "browser".toList []).1.ua_data.version =
      some "1.1".toList ∧
    (parse [fooRuleNoSub] fooUA "h8".toList "browser".toList []).1.ua_data.version =
      some "9.9".toList := by
  refine ⟨?_, by decide, by decide⟩
  intro ua d
  rw [extract_version, versionLoop_eq_find]

/-- C9: when no rule in the list matches the input (and no client-hint
identity is involved in the base `parse` pipeline), parsing succeeds and
yields the empty record: `known` stays false, `is_known()` is false, and
`name()` and `version()` return the empty string. -/
theorem no_match_unknown_empty :
    ∀ (rules : List Rule) (user_agent ua_hash cache_name : Str) (c : Cache),
      (∀ r ∈ rules, r.regex user_agent = none) →
      (parse rules user_agent ua_hash cache_name c).1.ua_data = ({} : UAData) ∧
      (parse rules user_agent ua_hash cache_name c).1.known = false ∧
      (parse rules user_agent ua_hash cache_name c).1.is_known = false ∧
      (parse rules user_agent ua_hash cache_name c).1.nameF = [] ∧
      (parse rules user_agent ua_hash cache_name c).1.versionF = [] := by
  intro rules ua h n c hmatch
  have hfind : rules.find? (fun r => (r.regex ua).isSome) = none := by
    rw [List.find?_eq_none]
    intro r hr
    simp [hmatch r hr]
  by_cases hd : detailsTruthy (get_from_cache c h n).1 = true
  · simp [parse, hd, ParserState.is_known, ParserState.nameF, ParserState.versionF,
      UAData.isEmptyDict, orEmpty]
  · simp only [Bool.not_eq_true] at hd
    simp [parse, hd, extract_details, parseLoop_eq_find, hfind, extract_version,
      versionLoop, set_details, orEmpty, ParserState.is_known, ParserState.nameF,
      ParserState.versionF, UAData.isEmptyDict]

theorem no_match_unknown_empty_witness :
    (parse [chromeRule] "Firefox".toList "h9".toList "browser".toList []).1.is_known =
      false :=
  (no_match_unknown_empty [chromeRule] "Firefox".toList "h9".toList
    "browser".toList [] (by decide)).2.2.1

/-- C10: a cache lookup is not read-only — when the hash is absent,
`get_from_cache` takes the `KeyError` path, inserts an empty dict under
the hash as a side effect, and returns an empty dict; a second lookup
for the same hash then finds the slot (no `KeyError` path) and leaves
the cache unchanged. -/
theorem cache_miss_inserts_empty_slot :
    ∀ (c : Cache) (ua_hash cache_name : Str),
      lookupA ua_hash c = none →
      get_from_cache c ua_hash cache_name = (.emptyDict, setA ua_hash [] c) ∧
      lookupA ua_hash (setA ua_hash [] c) = some [] ∧
      (get_from_cache (setA ua_hash [] c) ua_hash cache_name).1 = .noneVal ∧
      (get_from_cache (setA ua_hash [] c) ua_hash cache_name).2 =
        setA ua_hash [] c := by
  intro c h n hc
  refine ⟨by simp [get_from_cache, hc], lookupA_setA_self h [] c, ?_, ?_⟩
  · simp [get_from_cache, lookupA_setA_self, lookupA]
  · simp [get_from_cache, lookupA_setA_self]

theorem cache_miss_inserts_empty_slot_witness :
    get_from_cache [] "h10".toList "browser".toList =
      (.emptyDict, setA "h10".toList [] []) :=
  (cache_miss_inserts_empty_slot [] "h10".toList "browser".toList rfl).1

/-- C7: the engine fallback of `set_engine` is dead code — when the
record's engine field is missing (or falsy), `set_engine` returns at
once without running the `Engine` matcher, so a record with no engine
keeps no engine; and whenever the body past the guard is reached the
engine key is necessarily present, so the `engine not in ua_data`
fallback branch can never run. -/
theorem set_engine_missing_engine_noop :
    (∀ (abbrevMap familyMap : Str → Option Str) (chVersion : Str)
        (engineFallback : Option EngineVal) (ua : UAData),
      engineTruthy ua.engine = false →
      set_engine abbrevMap familyMap chVersion engineFallback ua = ua) ∧
    (∀ e : Option EngineVal, engineTruthy e = true → e.isNone = false) := by
  constructor
  · intro am fm cv fb ua h
    simp [set_engine, h]
  · intro e he
    cases e with
    | none => simp [engineTruthy] at he
    | some v => rfl

theorem set_engine_missing_engine_noop_witness :
    set_engine (fun _ => none) (fun _ => none) [] none
        { name := some "Firefox".toList } =
      { name := some "Firefox".toList } ∧
    ({ name := some "Firefox".toList } : UAData).engine = none :=
  ⟨set_engine_missing_engine_noop.1 _ _ _ _ _ rfl, rfl⟩

def c1Hash : Str := "h1".toList

def c1CacheName : Str := "browser".toList

def c1Cold : ParserState × Cache :=
  parse [chromeRule] "Chrome".toList c1Hash c1CacheName []

def c1Warm : ParserState × Cache :=
  parse [chromeRule] "Chrome".toList c1Hash c1CacheName c1Cold.2

/-- C1: determinism across the cache fails — a cold `parse` populates
the record (`name` is `Chrome`, `known` true), but the warm call on the
same input returns early on the cache hit without restoring the cached
details into `ua_data`, yielding an empty record with `known` false, so
the cold and warm identity records differ. -/
theorem parse_warm_cache_empty_record :
    c1Cold.1.ua_data.name = some "Chrome".toList ∧
    c1Cold.1.known = true ∧
    c1Cold.1.is_known = true ∧
    c1Cold.1.nameF = "Chrome".toList ∧
    c1Warm.1.ua_data.name = none ∧
    c1Warm.1.known = false ∧
    c1Warm.1.is_known = false ∧
    c1Warm.1.nameF = [] ∧
    c1Cold.1.nameF ≠ c1Warm.1.nameF := by
  decide

def safariUA : UAData := { name := some "Safari".toList }

def ddgHintsWithAppId : ClientHints :=
  { data :=
      { name := some ddgName
        version := some "7.1".toList
        app_id := some "com.duckduckgo.mobile.android".toList }
    isBrowser := true }

/-- C4 counterexample: when the client hints report the DuckDuckGo brand
but also carry an app identifier, the `app_id` branch of
`set_data_from_client_hints` preempts the fixed-brand branch: the raw
dict merge keeps the client-hint version `7.1` instead of clearing it,
and `engine_version` is not set — contradicting the claim's "always". -/
theorem duckduckgo_app_id_counterexample :
    orEmpty ddgHintsWithAppId.data.name = ddgName ∧
    (set_data_from_client_hints (some ddgHintsWithAppId) safariUA).version =
      some "7.1".toList ∧
    some "7.1".toList ≠ some ([] : Str) ∧
    (set_data_from_client_hints (some ddgHintsWithAppId) safariUA).engine_version =
      none := by
  decide

/-- C4 amended: whenever the UA matched (the record is non-empty), the
client hints carry no app identifier, and the client-hint name is
exactly "DuckDuckGo Privacy Browser", reconciliation adopts that name,
clears the primary version to the empty string, and sets
`engine_version` to the client-hint version. -/
theorem duckduckgo_reconciliation :
    ∀ (ua : UAData) (ch : ClientHints),
      ua.isEmptyDict = false →
      truthyO ch.data.app_id = false →
      orEmpty ch.data.name = ddgName →
      (set_data_from_client_hints (some ch) ua).name = some ddgName ∧
      (set_data_from_client_hints (some ch) ua).version = some [] ∧
      (set_data_from_client_hints (some ch) ua).engine_version =
        some (orEmpty ch.data.version) := by
  intro ua ch hua happ hname
  have hsome : ch.data.name = some ddgName := by
    have := orEmpty_eq_some (o := ch.data.name) (by rw [hname]; decide)
    rwa [hname] at this
  have horES : ∀ s : Str, orEmpty (some s) = s := fun s => rfl
  have htr2 : truthyO (some ddgName) = true := by decide
  simp [set_data_from_client_hints, hua, happ, hsome, superSetDataFromClientHints,
    horES, htr2]

theorem duckduckgo_reconciliation_witness :
    (set_data_from_client_hints
        (some { data := { name := some ddgName, version := some "7.1".toList },
                isBrowser := true })
        safariUA).version = some [] :=
  (duckduckgo_reconciliation safariUA
    { data := { name := some ddgName, version := some "7.1".toList },
      isBrowser := true }
    (by decide) (by decide) (by decide)).2.1

def vivaldiUA : UAData :=
  { name := some "Vivaldi".toList, short_name := some "VI".toList }

def chromium2026Hints : ClientHints :=
  { data := { name := some chromiumName, version := some "2026.01".toList }
    isBrowser := true }

def chromiumAppIdHints : ClientHints :=
  { data :=
      { name := some chromiumName
        version := some "2024.03".toList
        app_id := some "app.example".toList }
    isBrowser := true }

/-- C5 counterexample: the code's year pattern is `^202[0-5]`, not "four
digits beginning 202" — for client-hint version `2026.01` (four digits
beginning 202) the UA name is kept and Iridium is not forced; and when
the client hints also carry an app identifier, the `app_id` branch
preempts the Chromium branch entirely and adopts the client-hint name
even though the version `2024.03` matches the year pattern. -/
theorem iridium_year_pattern_counterexample :
    (set_data_from_client_hints (some chromium2026Hints) vivaldiUA).name =
      some "Vivaldi".toList ∧
    some "Vivaldi".toList ≠ some iridiumName ∧
    dateVersionSearch "2024.03".toList = true ∧
    (set_data_from_client_hints (some chromiumAppIdHints) vivaldiUA).name =
      some chromiumName ∧
    some chromiumName ≠ some iridiumName := by
  decide

set_option maxRecDepth 8000 in
/-- C5 amended: when the UA record names a browser (non-empty name) with
short name outside CR/CV/AN, the client hints carry no app identifier
and report the generic brand Chromium or Chrome Webview, then: if the
client-hint version starts with `202x` for a digit `x` between 0 and 5
(years 2020-2025), the record's name is forced to Iridium and its short
name to I1; otherwise the UA-derived name and short name are kept. -/
theorem iridium_reconciliation :
    ∀ (ua : UAData) (ch : ClientHints),
      truthyO ch.data.app_id = false →
      orEmpty ua.name ≠ [] →
      (orEmpty ch.data.name = chromiumName ∨
        orEmpty ch.data.name = chromeWebviewName) →
      orEmpty ua.short_name ≠ "CR".toList →
      orEmpty ua.short_name ≠ "CV".toList →
      orEmpty ua.short_name ≠ "AN".toList →
      (dateVersionSearch (orEmpty ch.data.version) = true →
        (set_data_from_client_hints (some ch) ua).name = some iridiumName ∧
        (set_data_from_client_hints (some ch) ua).short_name =
          some "I1".toList) ∧
      (dateVersionSearch (orEmpty ch.data.version) = false →
        (set_data_from_client_hints (some ch) ua).name =
          some (orEmpty ua.name) ∧
        (set_data_from_client_hints (some ch) ua).short_name =
          some (orEmpty ua.short_name)) := by
  intro ua ch happ hname hch hcr hcv han
  have hempty : ua.isEmptyDict = false := by
    cases hn : ua.name with
    | none => rw [hn] at hname; simp [orEmpty] at hname
    | some s => simp [UAData.isEmptyDict, hn]
  have hg1 : ¬orEmpty ua.short_name = ['C', 'R'] := hcr
  have hg2 : ¬orEmpty ua.short_name = ['C', 'V'] := hcv
  have hg3 : ¬orEmpty ua.short_name = ['A', 'N'] := han
  have hn1 : ¬(chromiumName = ddgName) := by decide
  have hn2 : ¬(chromeWebviewName = ddgName) := by decide
  rcases hch with h | h <;>
    (constructor <;> intro hdate <;>
      simp [set_data_from_client_hints, hempty, happ, h, hname, hg1, hg2, hg3,
        hn1, hn2, hdate])

/-- The "no version without a name" invariant of the spec: a record with
a non-empty version has a non-empty name. -/
def versionNameInvariant (d : UAData) : Prop :=
  orEmpty d.version ≠ [] → orEmpty d.name ≠ []

/-- Modelled from the spec: `ClientHints.client_data()` is not under
`src/`; per the spec every produced record satisfies the
name-before-version invariant, so the client-hint record is taken to
carry no empty-string fields and no version without a name. -/
def CHWellFormed (ch : ClientHints) : Prop :=
  (∀ s, ch.data.name = some s → s ≠ ([] : Str)) ∧
  (∀ s, ch.data.version = some s → s ≠ ([] : Str)) ∧
  (ch.data.version.isSome → ch.data.name.isSome)

theorem isEmpty_false_of_ne {l : Str} (h : l ≠ []) : l.isEmpty = false := by
  cases hE : l.isEmpty
  · rfl
  · exact absurd (List.isEmpty_iff.mp hE) h

theorem ne_of_isEmpty_false {l : Str} (h : l.isEmpty = false) : l ≠ [] := by
  intro hc
  rw [hc] at h
  simp at h

theorem clear_invariant (d : UAData) :
    versionNameInvariant
      (if (orEmpty d.name).isEmpty && !(orEmpty d.version).isEmpty then
        { d with version := some [] }
      else d) := by
  by_cases hc : ((orEmpty d.name).isEmpty && !(orEmpty d.version).isEmpty) = true
  · rw [if_pos hc]
    intro hv
    simp [orEmpty] at hv
  · rw [if_neg hc]
    intro hv
    have hB : (orEmpty d.version).isEmpty = false := isEmpty_false_of_ne hv
    have hc' : ((orEmpty d.name).isEmpty && !(orEmpty d.version).isEmpty) = false :=
      Bool.eq_false_iff.mpr hc
    rw [hB] at hc'
    simp at hc'
    exact hc'

theorem wf_version_name (chd : ClientHintData)
    (wfName : ∀ s, chd.name = some s → s ≠ ([] : Str))
    (wfImp : chd.version.isSome → chd.name.isSome) :
    orEmpty chd.version ≠ [] → orEmpty chd.name ≠ [] := by
  intro hv
  cases hver : chd.version with
  | none => rw [hver] at hv; simp [orEmpty] at hv
  | some s =>
    have hsome : chd.name.isSome := wfImp (by rw [hver]; rfl)
    cases hnm : chd.name with
    | none => rw [hnm] at hsome; simp at hsome
    | some t =>
      have ht := wfName t hnm
      simpa [orEmpty] using ht

theorem truthy_name_nonempty {o : Option Str} (h : truthyO o = true) :
    orEmpty o ≠ [] := by
  unfold truthyO at h
  simp at h
  exact h

theorem superSet_invariant (ua : UAData) (chd : ClientHintData)
    (hua : versionNameInvariant ua)
    (wfName : ∀ s, chd.name = some s → s ≠ ([] : Str))
    (wfImp : chd.version.isSome → chd.name.isSome) :
    versionNameInvariant (superSetDataFromClientHints ua chd) := by
  intro hv
  unfold superSetDataFromClientHints at hv ⊢
  simp only at hv ⊢
  by_cases htv : truthyO chd.version = true
  · rw [if_pos htv] at hv
    have hn := wf_version_name chd wfName wfImp
      (by
        have := truthy_name_nonempty (o := chd.version) htv
        exact this)
    have htn : truthyO chd.name = true := by
      unfold truthyO
      rw [isEmpty_false_of_ne hn]
      rfl
    rw [if_pos htn]
    exact hn
  · rw [if_neg htv] at hv
    have hn := hua hv
    by_cases htn : truthyO chd.name = true
    · rw [if_pos htn]
      exact truthy_name_nonempty htn
    · rw [if_neg htn]
      exact hn

theorem mergeCH_invariant (ua : UAData) (chd : ClientHintData)
    (hua : versionNameInvariant ua)
    (wfName : ∀ s, chd.name = some s → s ≠ ([] : Str))
    (wfImp : chd.version.isSome → chd.name.isSome) :
    versionNameInvariant (mergeCH ua chd) := by
  intro hv
  unfold mergeCH at hv ⊢
  simp only at hv ⊢
  cases hver : chd.version with
  | some s =>
    have hsome : chd.name.isSome := wfImp (by rw [hver]; rfl)
    cases hnm : chd.name with
    | none => rw [hnm] at hsome; simp at hsome
    | some t =>
      have ht := wfName t hnm
      simpa [oor, orEmpty] using ht
  | none =>
    rw [hver] at hv
    simp only [oor] at hv
    have hn := hua hv
    cases hnm : chd.name with
    | none => simpa [oor] using hn
    | some t =>
      have ht := wfName t hnm
      simpa [oor, orEmpty] using ht

/-- C2: the "no version without a name" invariant holds for every record
produced by extraction (`set_details`) and is preserved by client-hint
reconciliation (`set_data_from_client_hints` with a well-formed hint
record); an intermediate state with a non-empty version and an empty or
absent name is self-healed by `set_details`, which clears the version to
the empty string. -/
theorem version_name_invariant_enforced :
    (∀ st : ParserState, versionNameInvariant (set_details st).ua_data) ∧
    (∀ st : ParserState, st.matched = none →
      orEmpty st.ua_data.name = [] → orEmpty st.ua_data.version ≠ [] →
      (set_details st).ua_data.version = some []) ∧
    (∀ (client_hints : Option ClientHints) (ua : UAData),
      versionNameInvariant ua →
      (∀ ch, client_hints = some ch → CHWellFormed ch) →
      versionNameInvariant (set_data_from_client_hints client_hints ua)) := by
  refine ⟨?_, ?_, ?_⟩
  · intro st
    unfold set_details
    exact clear_invariant _
  · intro st hm hn hv
    have hB : (orEmpty st.ua_data.version).isEmpty = false := isEmpty_false_of_ne hv
    have hc : ((orEmpty st.ua_data.name).isEmpty &&
        !(orEmpty st.ua_data.version).isEmpty) = true := by
      rw [hn, hB]
      rfl
    simp [set_details, hm, hc]
  · intro hints ua hua hwf
    cases hints with
    | none => simpa [set_data_from_client_hints] using hua
    | some ch =>
      obtain ⟨wfName, wfVersion, wfImp⟩ := hwf ch rfl
      unfold set_data_from_client_hints
      by_cases h1 : (ua.isEmptyDict && ch.isBrowser) = true
      · simp only [h1, if_true]
        intro hv
        exact wf_version_name ch.data wfName wfImp hv
      · simp only [h1, if_false, Bool.false_eq_true]
        by_cases h2 : truthyO ch.data.app_id = true
        · rw [if_pos h2]
          exact mergeCH_invariant ua ch.data hua wfName wfImp
        · rw [if_neg h2]
          by_cases h3 : orEmpty ch.data.name = ddgName
          · rw [if_pos h3]
            intro hv
            simp [orEmpty] at hv
          · rw [if_neg h3]
            by_cases h4 : (!List.isEmpty (orEmpty ua.name) &&
                (decide (orEmpty ch.data.name = chromiumName) ||
                  decide (orEmpty ch.data.name = chromeWebviewName)) &&
                !(decide (orEmpty ua.short_name = "CR".toList) ||
                  decide (orEmpty ua.short_name = "CV".toList) ||
                  decide (orEmpty ua.short_name = "AN".toList))) = true
            · rw [if_pos h4]
              have hn : orEmpty ua.name ≠ [] := by
                have hcomp := (Bool.and_eq_true _ _).mp
                  ((Bool.and_eq_true _ _).mp h4).1
                have := hcomp.1
                simp at this
                exact this
              by_cases h5 : dateVersionSearch (orEmpty ch.data.version) = true
              · rw [if_pos h5]
                intro hv
                simp [orEmpty, iridiumName]
              · rw [if_neg h5]
                intro hv
                simpa [orEmpty] using hn
            · rw [if_neg h4]
              by_cases h6 : orEmpty ch.data.name ++ mobileSuffix = orEmpty ua.name
              · rw [if_pos h6]
                intro hv
                have hn : orEmpty ua.name ≠ [] := by
                  rw [← h6]
                  intro hc
                  have := List.append_eq_nil.mp hc
                  have hms : mobileSuffix ≠ [] := by decide
                  exact hms this.2
                simpa [orEmpty] using hn
              · rw [if_neg h6]
                exact superSet_invariant ua ch.data hua wfName wfImp

theorem version_name_invariant_enforced_witness :
    versionNameInvariant
      (set_data_from_client_hints none { name := some "Safari".toList }) :=
  version_name_invariant_enforced.2.2 none { name := some "Safari".toList }
    (fun _ => by decide) (fun ch h => nomatch h)

theorem iridium_reconciliation_witness :
    (set_data_from_client_hints
        (some { data := { name := some chromiumName, version := some "2024.03".toList },
                isBrowser := true })
        vivaldiUA).name = some iridiumName :=
  ((iridium_reconciliation vivaldiUA
      { data := { name := some chromiumName, version := some "2024.03".toList },
        isBrowser := true }
      (by decide) (by decide) (Or.inl (by decide)) (by decide) (by decide)
      (by decide)).1 (by decide)).1

end DeviceDetector
